import Mathlib

/-!
Shallow embedding of `model/model_training/utils/ppo_utils.py`
(NeXTLinux/Assistant-AI): the experience-collection pipeline of
`CustomPPOTrainer` (`decode`, `make_experience`), the remote reference
scorer (`triton_server_ref_model` and its inner `ref_model`), and the
tokenizer set-up in `CustomPPOTrainer.__init__`.

Modelling conventions: Python strings are `List Char`; tensors are
(lists of) lists; floating-point values are `Rat` (exact field
arithmetic standing in for float arithmetic); fallible code returns
`Except`.  External collaborators that the repository does not define
(the HF tokenizer's `decode`, the torch model forward pass, the trlx
`RunningMoments.update`, `scores.mean()`/`scores.std()`, the triton
client) are parameters of the corresponding definitions, matching the
specification's declared scope boundaries.
-/

/-- Token ids (`torch.LongTensor` entries). -/
abbrev Token := Nat

/-- Python strings, modelled as their character sequences. -/
abbrev Str := List Char

/-! ## Reward scaling and clipping (`make_experience`, lines 789–796)

```python
if self.config.method.scale_reward == "running":
    scores /= self.running_moments.std
elif self.config.method.scale_reward == "ref":
    scores /= self.ref_std

clip_reward = self.config.method.cliprange_reward
if clip_reward:
    scores = torch.clip(scores, -clip_reward, clip_reward)
```
-/

/-- Score scaling step of `make_experience`: divide by the running std when
`scale_reward == "running"`, by the first-batch reference std when
`scale_reward == "ref"`, otherwise leave the scores unchanged. -/
def scaleScores (mode : String) (runningStd refStd : Rat) (scores : List Rat) : List Rat :=
  if mode = "running" then scores.map (fun x => x / runningStd)
  else if mode = "ref" then scores.map (fun x => x / refStd)
  else scores

/-- Clipping step of `make_experience`: `cliprange_reward` may be unset
(`None`) and `0.0` is falsy in Python, so `if clip_reward:` skips both;
otherwise `torch.clip(scores, -clip_reward, clip_reward)` clamps each
entry elementwise. -/
def applyClip (clipReward : Option Rat) (scores : List Rat) : List Rat :=
  match clipReward with
  | none => scores
  | some c => if c ≠ 0 then scores.map (fun x => min (max x (-c)) c) else scores

/-- Scaling followed by clipping, exactly as the two code blocks run in
sequence inside `make_experience`. -/
def processScores (mode : String) (runningStd refStd : Rat) (clipReward : Option Rat)
    (scores : List Rat) : List Rat :=
  applyClip clipReward (scaleScores mode runningStd refStd scores)

/-! ## Masked sequence bookkeeping inside `make_experience` (lines 768–901) -/

/-- Right-pad a row with the pad token to width `n`
(`F.pad(output, (0, maxsize - len(output)), value=self.tokenizer.pad_token_id)`). -/
def padTo (pad : Token) (n : Nat) (xs : List Token) : List Token :=
  xs ++ List.replicate (n - xs.length) pad

/-- Widest row (`maxsize = max(map(len, outputs))`). -/
def maxLen (xss : List (List Token)) : Nat :=
  xss.foldl (fun a xs => max a xs.length) 0

/-- Attention mask over a token row
(`all_tokens.not_equal(self.tokenizer.pad_token_id).long()`). -/
def attnMask (pad : Token) (toks : List Token) : List Nat :=
  toks.map (fun t => if t ≠ pad then 1 else 0)

/-- One row of `all_tokens = torch.cat((prompt_tensors, sample_outputs), dim=1)`,
with the response right-padded to the common width `S`. -/
def allTokens (pad : Token) (S : Nat) (prompt resp : List Token) : List Token :=
  prompt ++ padTo pad S resp

/-- Python slice `xs[s:e]` for `0 ≤ s ≤ e` (both bounds clamped to the length,
as in Python). -/
def pySlice (s e : Nat) (xs : List α) : List α :=
  (xs.drop s).take (e - s)

/-- Outputs of the (external) policy and reference forward passes for one
example: `logprobs = logprobs_of_labels(logits[:, :-1, :], all_tokens[:, 1:])`
(one entry per position except the last, so length `L - 1` for row width `L`),
`refLogprobs` likewise from the reference logits, and `values`, the raw value
head output with one entry per position (the code then drops the final entry:
`values = values.cpu()[:, :-1]`). -/
structure ExampleFwd where
  logprobs : List Rat
  refLogprobs : List Rat
  values : List Rat

/-- The masked log-ratio
`log_ratio = (logprobs - ref_logprobs) * attention_mask[:, :-1]`. -/
def logRatio (mask : List Nat) (lp ref : List Rat) : List Rat :=
  List.zipWith (fun x (m : Nat) => x * (m : Rat))
    (List.zipWith (fun a b => a - b) lp ref) mask.dropLast

/-- The per-token KL penalty row `kl_penalty = self.kl_ctl.value * -log_ratio`. -/
def klPenaltyRow (klCoef : Rat) (ratio : List Rat) : List Rat :=
  ratio.map (fun x => klCoef * (-x))

/-- In-place terminal bonus `rewards[-1] += scores[sample_idx]`: add `score`
to the last entry of the list (the list is nonempty whenever the Python code
reaches this line). -/
def addScoreLast (score : Rat) : List Rat → List Rat
  | [] => []
  | [x] => [x + score]
  | x :: y :: xs => x :: addScoreLast score (y :: xs)

/-- Trainer-level constants read by one rollout iteration. -/
structure RolloutParams where
  padId : Token
  eosId : Token
  klCoef : Rat

/-- The per-token fields of one `PPORLElement` (the two token tensors are
carried through unchanged by the code and play no role in the claims). -/
structure ReplayElement where
  logprobs : List Rat
  values : List Rat
  rewards : List Rat

/-- `start = prompt_tensors.shape[1] - 1` (Python int subtraction on a
positive width; prompts are at least one token wide). -/
def rolloutStart (P : Nat) : Nat := P - 1

/-- `ends[ix] = start + attention_mask[ix, start:].sum() + 1` for one row. -/
def rolloutStop (pr : RolloutParams) (P S : Nat) (prompt resp : List Token) : Nat :=
  rolloutStart P
    + ((attnMask pr.padId (allTokens pr.padId S prompt resp)).drop (rolloutStart P)).sum + 1

/-- The masked log-ratio row of one example, spelled out over its own
`all_tokens` row. -/
def exampleLogRatio (pr : RolloutParams) (S : Nat) (prompt resp : List Token)
    (fwd : ExampleFwd) : List Rat :=
  logRatio (attnMask pr.padId (allTokens pr.padId S prompt resp)) fwd.logprobs fwd.refLogprobs

/-- The replay element `make_experience` builds for one example: slice
`logprobs`, `values[:, :-1]` and the KL-penalty row to `[start : ends[ix]]`
and add the (already scaled/clipped) terminal score onto the last reward
entry. -/
def makeElement (pr : RolloutParams) (P S : Nat) (prompt resp : List Token)
    (fwd : ExampleFwd) (score : Rat) : ReplayElement :=
  let start := rolloutStart P
  let stop := rolloutStop pr P S prompt resp
  { logprobs := pySlice start stop fwd.logprobs
    values := pySlice start stop fwd.values.dropLast
    rewards := addScoreLast score
      (pySlice start stop (klPenaltyRow pr.klCoef (exampleLogRatio pr S prompt resp fwd))) }

/-- One full rollout iteration of `make_experience` over a batch: the common
prompt width is `prompt_tensors.shape[1]`, the common response width is
`maxsize`, and every example yields one replay element. -/
def makeExperienceIteration (pr : RolloutParams) (prompts resps : List (List Token))
    (fwds : List ExampleFwd) (scores : List Rat) : List ReplayElement :=
  let P := (prompts.headD []).length
  let S := maxLen resps
  (((prompts.zip resps).zip fwds).zip scores).map
    (fun x => makeElement pr P S x.1.1.1 x.1.1.2 x.1.2 x.2)

/-! ## Claim C5 -/

/-- C5: in every rollout iteration, scores are divided by the running std in
mode `"running"`, by the fixed first-batch reference std in mode `"ref"`, and
left unscaled without error for any other mode; afterwards, when a clip range
`c > 0` is configured, every resulting score lies in `[-c, c]` (and with no
clip range configured the scores pass through unchanged). -/
theorem score_scaling_and_clipping (mode : String) (runningStd refStd c : Rat)
    (scores : List Rat) (hc : 0 < c) :
    (mode = "running" → processScores mode runningStd refStd (some c) scores
      = (scores.map (fun x => x / runningStd)).map (fun x => min (max x (-c)) c)) ∧
    (mode = "ref" → processScores mode runningStd refStd (some c) scores
      = (scores.map (fun x => x / refStd)).map (fun x => min (max x (-c)) c)) ∧
    (mode ≠ "running" → mode ≠ "ref" →
      processScores mode runningStd refStd none scores = scores ∧
      processScores mode runningStd refStd (some c) scores
        = scores.map (fun x => min (max x (-c)) c)) ∧
    (∀ y ∈ processScores mode runningStd refStd (some c) scores, -c ≤ y ∧ y ≤ c) := by
  have hcne : c ≠ 0 := ne_of_gt hc
  refine ⟨?_, ?_, ?_, ?_⟩
  · intro h
    simp [processScores, scaleScores, applyClip, h, hcne]
  · intro h
    by_cases hrun : mode = "running"
    · rw [h] at hrun; simp at hrun
    · simp [processScores, scaleScores, applyClip, h, hrun, hcne]
  · intro h1 h2
    constructor
    · simp [processScores, scaleScores, applyClip, h1, h2]
    · simp [processScores, scaleScores, applyClip, h1, h2, hcne]
  · intro y hy
    have : ∃ x, y = min (max x (-c)) c := by
      simp only [processScores, applyClip, if_pos hcne] at hy
      rcases List.mem_map.mp hy with ⟨x, _, hx⟩
      exact ⟨x, hx.symm⟩
    rcases this with ⟨x, rfl⟩
    constructor
    · have h1 : -c ≤ max x (-c) := le_max_right _ _
      have h2 : -c ≤ c := by linarith
      exact le_min h1 h2
    · exact min_le_right _ _

/-- Witness for C5: mode `"running"`, running std 2, scores `[6, -10]`,
clip 2; the theorem applies with the hypothesis `0 < 2` discharged. -/
theorem score_scaling_and_clipping_witness :
    processScores "running" 2 5 (some 2) [6, -10]
      = (([6, -10] : List Rat).map (fun x => x / 2)).map (fun x => min (max x (-2)) 2) :=
  (score_scaling_and_clipping "running" 2 5 2 [6, -10] (by norm_num)).1 rfl

/-! ## Claim C6: the rollout accumulation loop (`make_experience`, lines 703–919)

```python
ppo_rl_elements = []
while len(ppo_rl_elements) < num_rollouts:
    batch = next(self.prompt_iterator)
    ...
    for sample_idx in range(n_samples):
        ppo_rl_elements.append(PPORLElement(...))
...
self.push_to_store(ppo_rl_elements)
```

The body of one iteration appends exactly one element per local example
(`n_samples`); `batchElems k` stands for the replay elements the `k`-th
iteration produces (`makeExperienceIteration` applied to the `k`-th drawn
batch).  Since every batch holds at least one example, `numRollouts`
iterations always suffice, so the fuelled recursion below agrees with the
unbounded Python `while` loop whenever every batch is nonempty.
-/

/-- The accumulation `while` loop of `make_experience`, with enough fuel to
cover every run on nonempty batches. -/
def rolloutLoop (numRollouts : Nat) (batchElems : Nat → List ReplayElement) :
    Nat → Nat → List ReplayElement → List ReplayElement
  | 0, _, acc => acc
  | fuel + 1, k, acc =>
    if acc.length < numRollouts then
      rolloutLoop numRollouts batchElems fuel (k + 1) (acc ++ batchElems k)
    else acc

/-- The full list `ppo_rl_elements` accumulated by one `make_experience`
call. -/
def make_experience (numRollouts : Nat) (batchElems : Nat → List ReplayElement) :
    List ReplayElement :=
  rolloutLoop numRollouts batchElems numRollouts 0 []

/-- The sequence of `push_to_store` calls a `make_experience` call performs:
exactly one, carrying the whole accumulated list. -/
def makeExperiencePushes (numRollouts : Nat) (batchElems : Nat → List ReplayElement) :
    List (List ReplayElement) :=
  [make_experience numRollouts batchElems]

/-- Exit invariant of the accumulation loop: with every batch nonempty and
enough fuel, the loop returns the accumulator extended by some number `n` of
whole consecutive batches, reaches at least `numRollouts` elements, and `n`
is minimal (any proper prefix of iterations is still below the target). -/
theorem rolloutLoop_spec (numRollouts : Nat) (be : Nat → List ReplayElement)
    (hpos : ∀ k, 0 < (be k).length) :
    ∀ fuel k acc, numRollouts ≤ acc.length + fuel →
      numRollouts ≤ (rolloutLoop numRollouts be fuel k acc).length ∧
      ∃ n, rolloutLoop numRollouts be fuel k acc
            = acc ++ ((List.range' k n).map be).flatten ∧
          ∀ m < n, (acc ++ ((List.range' k m).map be).flatten).length < numRollouts := by
  intro fuel
  induction fuel with
  | zero =>
    intro k acc h
    refine ⟨by simpa [rolloutLoop] using h, 0, by simp [rolloutLoop], by omega⟩
  | succ fuel ih =>
    intro k acc h
    by_cases hlt : acc.length < numRollouts
    · have hstep : rolloutLoop numRollouts be (fuel + 1) k acc
          = rolloutLoop numRollouts be fuel (k + 1) (acc ++ be k) := by
        simp [rolloutLoop, hlt]
      have hfuel : numRollouts ≤ (acc ++ be k).length + fuel := by
        have := hpos k
        simp only [List.length_append]
        omega
      obtain ⟨h1, n, heq, hmin⟩ := ih (k + 1) (acc ++ be k) hfuel
      refine ⟨by rwa [hstep], n + 1, ?_, ?_⟩
      · rw [hstep, heq, List.range'_succ, List.map_cons, List.flatten_cons,
          List.append_assoc]
      · intro m hm
        match m with
        | 0 => simpa using hlt
        | m' + 1 =>
          rw [List.range'_succ, List.map_cons, List.flatten_cons, ← List.append_assoc]
          exact hmin m' (by omega)
    · refine ⟨by simpa [rolloutLoop, hlt] using Nat.le_of_not_lt hlt, 0,
        by simp [rolloutLoop, hlt], by omega⟩

/-- C6: with target `numRollouts` and every drawn batch nonempty, the loop
accumulates whole batches in order until the element count first reaches the
target (so at least `numRollouts` elements are collected, one per local
example per iteration), and the entire collected list is pushed to the replay
buffer in a single push operation. -/
theorem make_experience_accumulates_and_pushes_once (numRollouts : Nat)
    (be : Nat → List ReplayElement) (hpos : ∀ k, 0 < (be k).length) :
    numRollouts ≤ (make_experience numRollouts be).length ∧
    makeExperiencePushes numRollouts be = [make_experience numRollouts be] ∧
    ∃ n, make_experience numRollouts be = ((List.range n).map be).flatten ∧
        ∀ m < n, (((List.range m).map be).flatten).length < numRollouts := by
  obtain ⟨h1, n, heq, hmin⟩ :=
    rolloutLoop_spec numRollouts be hpos numRollouts 0 [] (by simp)
  refine ⟨h1, rfl, n, ?_, ?_⟩
  · rw [make_experience, heq, List.nil_append, List.range_eq_range']
  · intro m hm
    have := hmin m hm
    rwa [List.nil_append, ← List.range_eq_range'] at this

/-- Witness for C6: target 3 with singleton batches; the loop gathers three
one-element batches and pushes them once. -/
theorem make_experience_accumulates_witness :
    3 ≤ (make_experience 3 (fun _ => [⟨[], [], []⟩])).length ∧
    makeExperiencePushes 3 (fun _ => [⟨[], [], []⟩])
      = [make_experience 3 (fun _ => [⟨[], [], []⟩])] :=
  ⟨(make_experience_accumulates_and_pushes_once 3 _ (fun _ => by simp)).1,
    (make_experience_accumulates_and_pushes_once 3 _ (fun _ => by simp)).2.1⟩

/-! ## Claim C7: reference snapshot and running moments (lines 780–787)

```python
# store statistics of the initial rollout as reference
if self.ref_mean is None:
    self.ref_mean, self.ref_std = scores.mean(), scores.std()
all_scores_mean, all_scores_std = self.running_moments.update(scores)
```

`scores.mean()` / `scores.std()` (torch) and `RunningMoments.update`
(trlx) are external; they are abstracted as the parameters `snap` and
`update`.  `ref_mean` is initialized to `None` at trainer construction
(in the external base trainer).
-/

/-- The mutable trainer statistics touched by one rollout iteration. -/
structure StatsState (M : Type) where
  refMean : Option Rat
  refStd : Option Rat
  running : M

/-- One rollout iteration's statistics update: snapshot `ref_mean`/`ref_std`
from the raw scores only when `ref_mean` is still `None`, then apply the
running-moments update to the raw scores. -/
def statsStep {M : Type} (snap : List Rat → Rat × Rat) (update : M → List Rat → M)
    (st : StatsState M) (scores : List Rat) : StatsState M :=
  let st1 := match st.refMean with
    | none => { st with refMean := some (snap scores).1, refStd := some (snap scores).2 }
    | some _ => st
  { st1 with running := update st1.running scores }

/-- The statistics state after a sequence of rollout iterations, one raw
score batch per iteration. -/
def statsRun {M : Type} (snap : List Rat → Rat × Rat) (update : M → List Rat → M)
    (init : StatsState M) (batches : List (List Rat)) : StatsState M :=
  batches.foldl (statsStep snap update) init

/-- Once the reference pair is set, later iterations never change it, and the
running moments keep folding the update over every batch. -/
theorem statsRun_preserves_ref {M : Type} (snap : List Rat → Rat × Rat)
    (update : M → List Rat → M) (batches : List (List Rat)) :
    ∀ (st : StatsState M) (a : Rat), st.refMean = some a →
      (statsRun snap update st batches).refMean = st.refMean ∧
      (statsRun snap update st batches).refStd = st.refStd ∧
      (statsRun snap update st batches).running = batches.foldl update st.running := by
  induction batches with
  | nil => intro st a h; exact ⟨rfl, rfl, rfl⟩
  | cons b rest ih =>
    intro st a h
    have hstep : statsStep snap update st b
        = { st with running := update st.running b } := by
      simp [statsStep, h]
    have := ih { st with running := update st.running b } a (by simpa using h)
    simpa [statsRun, hstep] using this

/-- C7: starting from a freshly constructed trainer (`ref_mean is None`), the
fixed reference mean/std pair is snapshotted from the very first batch's raw
scores and never overwritten afterwards, while the running moments are
updated with every iteration's raw scores and never reset (the final running
state is the fold of the update over all batches seen). -/
theorem ref_stats_snapshot_once_running_always {M : Type}
    (snap : List Rat → Rat × Rat) (update : M → List Rat → M)
    (init : StatsState M) (b : List Rat) (rest : List (List Rat))
    (hinit : init.refMean = none) :
    (statsRun snap update init (b :: rest)).refMean = some (snap b).1 ∧
    (statsRun snap update init (b :: rest)).refStd = some (snap b).2 ∧
    (statsRun snap update init (b :: rest)).running
      = (b :: rest).foldl update init.running := by
  have hstep : statsStep snap update init b
      = { refMean := some (snap b).1, refStd := some (snap b).2,
          running := update init.running b } := by
    simp [statsStep, hinit]
  have := statsRun_preserves_ref snap update rest
    { refMean := some (snap b).1, refStd := some (snap b).2,
      running := update init.running b } (snap b).1 rfl
  refine ⟨?_, ?_, ?_⟩
  · simpa [statsRun, hstep] using this.1
  · simpa [statsRun, hstep] using this.2.1
  · simpa [statsRun, hstep, List.foldl_cons] using this.2.2

/-- Witness for C7: a concrete two-iteration run with `M := Rat`,
`snap := (sum, length)` and a summing update, starting from the
construction-time state with `ref_mean = None`. -/
theorem ref_stats_snapshot_once_witness :
    (statsRun (fun s => (s.sum, (s.length : Rat))) (fun m s => m + s.sum)
        ⟨none, none, 0⟩ [[1, 2], [5]]).refMean = some ((3 : Rat)) := by
  have := ref_stats_snapshot_once_running_always
    (fun s : List Rat => (s.sum, (s.length : Rat))) (fun m s => m + s.sum)
    ⟨none, none, (0 : Rat)⟩ [1, 2] [[5]] rfl
  rw [show ((3 : Rat)) = ([1, 2] : List Rat).sum by norm_num]
  exact this.1

/-! ## Claim C10: pad token versus eos token (`CustomPPOTrainer.__init__`,
lines 513–518, and the pad filtering that depends on it)

```python
self.tokenizer = AutoTokenizer.from_pretrained(config.tokenizer.tokenizer_path)
# if pad token id is same as escape token id, then add a new token at the end of the vocab
if self.tokenizer.pad_token_id == self.tokenizer.eos_token_id:
    self.tokenizer.add_special_tokens({"pad_token": "<|padding|>"})
```

`add_special_tokens` registers `<|padding|>` as a brand-new token, so its id
is the previous vocabulary size (one past every existing id, in particular
past `eos_token_id`).
-/

/-- The tokenizer fields this invariant concerns; `pad_token_id` and
`eos_token_id` may each be unset (`None`) on a freshly loaded tokenizer. -/
structure Tokenizer where
  padTokenId : Option Token
  eosTokenId : Option Token
  vocabSize : Nat

/-- The pad-token fix-up in `CustomPPOTrainer.__init__`: when the loaded
tokenizer has `pad_token_id == eos_token_id`, add the dedicated
`<|padding|>` pad token at the end of the vocabulary. -/
def initTokenizerPad (tk : Tokenizer) : Tokenizer :=
  if tk.padTokenId = tk.eosTokenId then
    { tk with padTokenId := some tk.vocabSize, vocabSize := tk.vocabSize + 1 }
  else tk

/-- Counting is unchanged by a filter that keeps the counted element. -/
theorem count_filter_keep (p : Token → Bool) (e : Token) (hp : p e = true) :
    ∀ toks : List Token, (toks.filter p).count e = toks.count e := by
  intro toks
  induction toks with
  | nil => rfl
  | cons t ts ih =>
    by_cases ht : p t
    · rw [List.filter_cons_of_pos ht, List.count_cons, List.count_cons, ih]
    · have hne : ¬ (t = e) := fun h => ht (h ▸ hp)
      rw [List.filter_cons_of_neg ht, List.count_cons, ih]
      simp [hne]

/-- C10: after `CustomPPOTrainer` construction the pad token id always
differs from the eos token id (for any loaded tokenizer whose eos id, when
set, lies inside its vocabulary), so filtering out pad tokens — as `decode`
does with `sample[sample != PAD_TOKEN_ID]` and as the attention mask of
`make_experience` does — never drops an end-of-sequence token. -/
theorem pad_token_differs_from_eos (tk : Tokenizer)
    (heos : ∀ e, tk.eosTokenId = some e → e < tk.vocabSize) :
    (initTokenizerPad tk).padTokenId ≠ (initTokenizerPad tk).eosTokenId ∧
    (∀ (e : Token) (toks : List Token), (initTokenizerPad tk).eosTokenId = some e →
      (toks.filter (fun t => some t ≠ (initTokenizerPad tk).padTokenId)).count e
        = toks.count e) := by
  have hne : (initTokenizerPad tk).padTokenId ≠ (initTokenizerPad tk).eosTokenId := by
    by_cases h : tk.padTokenId = tk.eosTokenId
    · simp only [initTokenizerPad, if_pos h]
      cases he : tk.eosTokenId with
      | none => simp
      | some e =>
        have hlt := heos e he
        simp only [ne_eq, Option.some.injEq]
        exact fun hc => absurd (hc ▸ hlt) (lt_irrefl e)
    · simpa [initTokenizerPad, if_neg h] using h
  refine ⟨hne, ?_⟩
  intro e toks he
  have hp : (fun t => decide (some t ≠ (initTokenizerPad tk).padTokenId)) e = true := by
    simp only [decide_eq_true_eq]
    intro hcontra
    exact hne (by rw [← hcontra, he])
  exact count_filter_keep _ e hp toks

/-- Witness for C10: a loaded tokenizer with `pad == eos == 2` in a
five-token vocabulary; after construction the ids differ. -/
theorem pad_token_differs_from_eos_witness :
    (initTokenizerPad ⟨some 2, some 2, 5⟩).padTokenId
      ≠ (initTokenizerPad ⟨some 2, some 2, 5⟩).eosTokenId :=
  (pad_token_differs_from_eos ⟨some 2, some 2, 5⟩
    (fun e he => by
      have h2 : (2 : Nat) = e := by injection he
      subst h2
      decide)).1

/-! ## Helper lemmas about the in-place terminal bonus and Python slicing -/

/-- The terminal bonus does not change the number of reward entries. -/
theorem addScoreLast_length (s : Rat) (xs : List Rat) :
    (addScoreLast s xs).length = xs.length := by
  induction xs with
  | nil => rfl
  | cons x ys ih =>
    cases ys with
    | nil => rfl
    | cons y zs => simpa [addScoreLast] using ih

/-- The terminal bonus leaves a nonempty list nonempty. -/
theorem addScoreLast_ne_nil (s : Rat) (xs : List Rat) (h : xs ≠ []) :
    addScoreLast s xs ≠ [] := by
  cases xs with
  | nil => exact absurd rfl h
  | cons x ys => cases ys with
    | nil => simp [addScoreLast]
    | cons y zs => simp [addScoreLast]

/-- The terminal bonus leaves every entry before the last unchanged. -/
theorem addScoreLast_getElem?_lt (s : Rat) :
    ∀ (xs : List Rat) (i : Nat), i + 1 < xs.length →
      (addScoreLast s xs)[i]? = xs[i]? := by
  intro xs
  induction xs with
  | nil => intro i h; simp at h
  | cons x ys ih =>
    intro i h
    cases ys with
    | nil => simp at h
    | cons y zs =>
      match i with
      | 0 => simp [addScoreLast]
      | i + 1 =>
        have := ih i (by simpa using Nat.lt_of_succ_lt_succ h)
        simpa [addScoreLast] using this

/-- Head of a cons list with a nonempty tail drops out of `getLast?`. -/
theorem getLast?_cons_of_ne_nil (x : Rat) (l : List Rat) (h : l ≠ []) :
    (x :: l).getLast? = l.getLast? := by
  cases l with
  | nil => exact absurd rfl h
  | cons a t => exact List.getLast?_cons_cons

/-- The terminal bonus adds the score exactly onto the last entry. -/
theorem addScoreLast_getLast? (s : Rat) (xs : List Rat) :
    (addScoreLast s xs).getLast? = xs.getLast?.map (fun x => x + s) := by
  induction xs with
  | nil => rfl
  | cons x ys ih =>
    cases ys with
    | nil => rfl
    | cons y zs =>
      have h1 : addScoreLast s (y :: zs) ≠ [] :=
        addScoreLast_ne_nil s (y :: zs) (by simp)
      calc (addScoreLast s (x :: y :: zs)).getLast?
          = (x :: addScoreLast s (y :: zs)).getLast? := rfl
        _ = (addScoreLast s (y :: zs)).getLast? := getLast?_cons_of_ne_nil _ _ h1
        _ = (y :: zs).getLast?.map (fun v => v + s) := ih
        _ = (x :: y :: zs).getLast?.map (fun v => v + s) := by
            rw [List.getLast?_cons_cons]

/-- Entries of a Python slice come from the underlying list, shifted by the
slice start. -/
theorem pySlice_getElem? (s e : Nat) (xs : List α) (i : Nat)
    (h : i < (pySlice s e xs).length) :
    (pySlice s e xs)[i]? = xs[s + i]? := by
  have hi : i < e - s := lt_of_lt_of_le (by simpa [pySlice] using h)
    ((xs.drop s).length_take_le (e - s))
  rw [pySlice, List.getElem?_take_of_lt hi, List.getElem?_drop]

/-! ## Claim C2: shape of the per-token reward sequence

In `make_experience`, per example:

```python
rewards = kl_penalty[sample_idx]          # kl_ctl.value * -log_ratio, sliced
rewards[-1] += scores[sample_idx]         # terminal scaled/clipped score
```
-/

/-- C2: in the reward sequence of every replay element, each position except
the last equals `kl_ctl.value * -log_ratio` at the corresponding token
position (no terminal score enters there), and the last position carries the
same KL term plus the example's terminal score — so the terminal score is
added exactly once, only onto the final position. -/
theorem rewards_kl_penalty_and_terminal_score (pr : RolloutParams) (P S : Nat)
    (prompt resp : List Token) (fwd : ExampleFwd) (score : Rat)
    (hne : (makeElement pr P S prompt resp fwd score).rewards ≠ []) :
    (∀ i, i + 1 < (makeElement pr P S prompt resp fwd score).rewards.length →
      (makeElement pr P S prompt resp fwd score).rewards[i]?
        = ((exampleLogRatio pr S prompt resp fwd)[rolloutStart P + i]?).map
            (fun r => pr.klCoef * (-r))) ∧
    (makeElement pr P S prompt resp fwd score).rewards.getLast?
      = ((exampleLogRatio pr S prompt resp fwd)[rolloutStart P +
            ((makeElement pr P S prompt resp fwd score).rewards.length - 1)]?).map
          (fun r => pr.klCoef * (-r) + score) := by
  have hrw : (makeElement pr P S prompt resp fwd score).rewards
      = addScoreLast score (pySlice (rolloutStart P) (rolloutStop pr P S prompt resp)
          (klPenaltyRow pr.klCoef (exampleLogRatio pr S prompt resp fwd))) := rfl
  set kl := pySlice (rolloutStart P) (rolloutStop pr P S prompt resp)
    (klPenaltyRow pr.klCoef (exampleLogRatio pr S prompt resp fwd)) with hkl
  have hlen : (makeElement pr P S prompt resp fwd score).rewards.length = kl.length := by
    rw [hrw, addScoreLast_length]
  constructor
  · intro i hi
    have hi2 : i < kl.length := by omega
    rw [hrw, addScoreLast_getElem?_lt score kl i (by omega)]
    rw [hkl, pySlice_getElem? _ _ _ _ hi2, klPenaltyRow, List.getElem?_map]
  · have hklne : kl ≠ [] := by
      intro hnil
      exact hne (by rw [hrw, hnil]; rfl)
    have hlast : kl.length - 1 < kl.length :=
      Nat.sub_lt (List.length_pos.mpr hklne) Nat.one_pos
    rw [hlen, hrw, addScoreLast_getLast?, List.getLast?_eq_getElem?,
      pySlice_getElem? _ _ _ _ hlast, klPenaltyRow, List.getElem?_map,
      Option.map_map]
    rfl

/-- Witness for C2: prompt `[1, 1]`, response `[3, 2]` (eos id 2, pad id 0),
policy logprobs `[1, 2, 3]`, reference logprobs zero, KL coefficient 1,
terminal score 5; the first reward entry is the pure KL term at the last
prompt position. -/
theorem rewards_kl_penalty_witness :
    (makeElement ⟨0, 2, 1⟩ 2 2 [1, 1] [3, 2]
        ⟨[1, 2, 3], [0, 0, 0], [0, 0, 0, 0]⟩ 5).rewards[0]?
      = ((exampleLogRatio ⟨0, 2, 1⟩ 2 [1, 1] [3, 2]
            ⟨[1, 2, 3], [0, 0, 0], [0, 0, 0, 0]⟩)[rolloutStart 2 + 0]?).map
          (fun r => (1 : Rat) * (-r)) :=
  (rewards_kl_penalty_and_terminal_score ⟨0, 2, 1⟩ 2 2 [1, 1] [3, 2]
    ⟨[1, 2, 3], [0, 0, 0], [0, 0, 0, 0]⟩ 5 (by decide)).1 0 (by decide)

/-! ## Claim C1: length of the per-token slices

The code comment (lines 877–879) announces slices "for tokens that are not
padding, … up to the `<eos>` token, while also including the latter", i.e.
per example a slice of length `true response length + 1`, running from the
last prompt position through the first eos position.  Because the trainer
guarantees `pad_token_id != eos_token_id` (claim C10), the eos token itself
counts into `attention_mask[ix, start:].sum()`, so the computed bound
`ends[ix] = start + sum + 1` overshoots the announced one by one: the slice
has length `min(true response length + 2, maxsize)` — one padding position
past the first eos for every example except the longest of the batch, and,
for a longest example (where the bound is clamped by the `L - 1` width of
`logprobs`/`values[:, :-1]`), length `true response length`, losing the eos
position itself.  The theorem below evaluates the pipeline on a concrete
two-example batch exhibiting both failures; the three slices do keep equal
lengths, as the claim also states. -/

/-- C1 (refuted on the code): batch with pad id 0, eos id 2, prompts
`[[1, 1], [1, 1]]` (width 2) and tokenized responses `[2]` (true length 1)
and `[3, 3, 2]` (true length 3, so `maxsize = 3`).  Both replay elements
carry logprob/value/reward slices of length 3, with equal lengths per
element as claimed — but the claimed lengths are `1 + 1 = 2` and
`3 + 1 = 4` respectively, so the first slice runs one position past the
first eos into padding and the second drops the eos position. -/
theorem make_experience_slice_length_off_by_one :
    ((makeExperienceIteration ⟨0, 2, 1⟩ [[1, 1], [1, 1]] [[2], [3, 3, 2]]
        [⟨[0, 0, 0, 0], [0, 0, 0, 0], [0, 0, 0, 0, 0]⟩,
          ⟨[0, 0, 0, 0], [0, 0, 0, 0], [0, 0, 0, 0, 0]⟩] [0, 0])[0]?).map
        (fun e => (e.logprobs.length, e.values.length, e.rewards.length))
      = some (3, 3, 3) ∧
    ((makeExperienceIteration ⟨0, 2, 1⟩ [[1, 1], [1, 1]] [[2], [3, 3, 2]]
        [⟨[0, 0, 0, 0], [0, 0, 0, 0], [0, 0, 0, 0, 0]⟩,
          ⟨[0, 0, 0, 0], [0, 0, 0, 0], [0, 0, 0, 0, 0]⟩] [0, 0])[1]?).map
        (fun e => (e.logprobs.length, e.values.length, e.rewards.length))
      = some (3, 3, 3) ∧
    ([2] : List Token).length + 1 = 2 ∧
    ([3, 3, 2] : List Token).length + 1 = 4 ∧
    (3 : Nat) ≠ 2 ∧ (3 : Nat) ≠ 4 := by
  refine ⟨?_, ?_, rfl, rfl, by decide, by decide⟩
  · rfl
  · rfl

/-! ## Claim C3: micro-batch chunking of the remote reference scorer

```python
def ref_model(all_tokens, attention_masks):
    mbs = 8
    ...
    out = []
    for i in range(math.ceil(len(all_tokens) / mbs)):
        batch_ixs = slice(i * mbs, (i + 1) * mbs)
        result = client.infer(triton_model, [
            prepare_tensor("input_ids", all_tokens[batch_ixs].astype(np.int32)),
            prepare_tensor("attention_mask", attention_masks[batch_ixs].astype(np.int32)),
        ])
        logits = result.as_numpy("logits")
        out.append(torch.tensor(logits))
    return torch.cat(out, dim=0)
```

`infer` abstracts one round trip to the deterministic server; a forward
pass computes each row's logits from that row alone, which is the
rowwise hypothesis `hinf` below.
-/

/-- The chunked loop of the remote scorer: the batch is cut into
micro-batches of 8 rows (`math.ceil(len / 8)` of them), each sent to the
server, and the per-chunk results are concatenated in order. -/
def ref_model (infer : List (List Token) → List (List Token) → List (List Rat))
    (all_tokens attention_masks : List (List Token)) : List (List Rat) :=
  ((List.range ((all_tokens.length + 7) / 8)).map
    (fun i => infer ((all_tokens.drop (i * 8)).take 8)
      ((attention_masks.drop (i * 8)).take 8))).flatten

/-- Dropping commutes with zipping equal positions. -/
theorem zip_drop_comm {α β : Type} (xs : List α) (ys : List β) (n : Nat) :
    (xs.drop n).zip (ys.drop n) = (xs.zip ys).drop n := by
  induction n generalizing xs ys with
  | zero => simp
  | succ n ih =>
    cases xs with
    | nil => simp
    | cons x xs =>
      cases ys with
      | nil => simp
      | cons y ys => simpa using ih xs ys

/-- Taking commutes with zipping equal positions. -/
theorem zip_take_comm {α β : Type} (xs : List α) (ys : List β) (n : Nat) :
    (xs.take n).zip (ys.take n) = (xs.zip ys).take n := by
  induction n generalizing xs ys with
  | zero => simp
  | succ n ih =>
    cases xs with
    | nil => simp
    | cons x xs =>
      cases ys with
      | nil => simp
      | cons y ys => simpa using ih xs ys

/-- Cutting a list into consecutive 8-chunks (`xs[i*8 : (i+1)*8]` for
`i < ceil(len(xs) / 8)`) and concatenating restores the list. -/
theorem chunks8_flatten_aux {γ : Type} :
    ∀ (n : Nat) (xs : List γ), xs.length = n →
      ((List.range ((xs.length + 7) / 8)).map
          (fun i => (xs.drop (i * 8)).take 8)).flatten = xs := by
  intro n
  induction n using Nat.strong_induction_on with
  | _ n ih =>
    intro xs hlen
    rcases Nat.eq_zero_or_pos n with h0 | hpos
    · have : xs = [] := List.length_eq_zero.mp (by omega)
      subst this
      simp
    · have hceil : (xs.length + 7) / 8 = ((xs.drop 8).length + 7) / 8 + 1 := by
        simp only [List.length_drop, hlen]
        omega
      have hcomp : ((fun i => (xs.drop (i * 8)).take 8) ∘ (fun i => i + 1))
          = fun i => ((xs.drop 8).drop (i * 8)).take 8 := by
        funext i
        simp only [Function.comp_apply, List.drop_drop]
        congr 2
        omega
      have hih := ih ((xs.drop 8).length)
        (by simp only [List.length_drop, hlen]; omega) (xs.drop 8) rfl
      rw [hceil, List.range_succ_eq_map, List.map_cons, List.flatten_cons,
        List.map_map, hcomp, hih]
      simp

/-- Closed form of `chunks8_flatten_aux`. -/
theorem chunks8_flatten {γ : Type} (xs : List γ) :
    ((List.range ((xs.length + 7) / 8)).map
        (fun i => (xs.drop (i * 8)).take 8)).flatten = xs :=
  chunks8_flatten_aux xs.length xs rfl

/-- C3: for any batch (token rows with their equal-count mask rows) and a
deterministic server computing each row's logits from that row alone, the
chunked loop (micro-batch size 8) returns exactly the rows a single
un-chunked invocation of the same server on the full batch would return —
same length, same original order. -/
theorem ref_model_chunking_refines_full_batch
    (f : List Token × List Token → List Rat)
    (infer : List (List Token) → List (List Token) → List (List Rat))
    (hinf : ∀ ts ms, infer ts ms = (ts.zip ms).map f)
    (toks masks : List (List Token)) (hlen : masks.length = toks.length) :
    ref_model infer toks masks = infer toks masks ∧
    (ref_model infer toks masks).length = toks.length := by
  have hz : (toks.zip masks).length = toks.length := by
    rw [List.length_zip, hlen, Nat.min_self]
  have hmain : ref_model infer toks masks = (toks.zip masks).map f := by
    unfold ref_model
    have hchunks : (fun i => infer ((toks.drop (i * 8)).take 8)
          ((masks.drop (i * 8)).take 8))
        = fun i => ((((toks.zip masks).drop (i * 8)).take 8)).map f := by
      funext i
      rw [hinf, zip_take_comm, zip_drop_comm]
    rw [hchunks]
    rw [show (fun i => ((((toks.zip masks).drop (i * 8)).take 8)).map f)
        = (List.map f) ∘ (fun i => (((toks.zip masks).drop (i * 8)).take 8)) from rfl]
    rw [← List.map_map, ← List.map_flatten, ← hz, chunks8_flatten]
  refine ⟨?_, ?_⟩
  · rw [hmain, hinf]
  · rw [hmain, List.length_map, hz]

/-- Witness for C3: a 10-row batch (so two micro-batches) against the
trivial rowwise server; the rowwise hypothesis and the length equality are
discharged at the concrete input. -/
theorem ref_model_chunking_witness :
    ref_model (fun ts ms => (ts.zip ms).map (fun _ => ([] : List Rat)))
        (List.replicate 10 [1]) (List.replicate 10 [1])
      = (fun (ts ms : List (List Token)) => (ts.zip ms).map (fun _ => ([] : List Rat)))
          (List.replicate 10 [1]) (List.replicate 10 [1]) :=
  (ref_model_chunking_refines_full_batch (fun _ => ([] : List Rat))
    (fun ts ms => (ts.zip ms).map (fun _ => ([] : List Rat)))
    (fun _ _ => rfl) (List.replicate 10 [1]) (List.replicate 10 [1]) (by simp)).1

/-! ## Claim C8: construction of the remote reference scorer

```python
def triton_server_ref_model():
    triton_host = os.environ.get("TRITON_HOST_REF")
    assert triton_host is not None, "Specify reference model in the TRITON_HOST_REF environmental variable"
    triton_url, triton_model = triton_host.split("/")
    client = client_util.InferenceServerClient(url=triton_url, verbose=False)
    def ref_model(all_tokens, attention_masks):
        ...
        result = client.infer(...)      # no try/except anywhere around this
        ...
    return ref_model
```
-/

/-- Construction of the remote scorer: read the environment value, assert
its presence (an `AssertionError` aborts construction when it is absent),
and unpack `<endpoint>/<model-name>`; the Python tuple unpacking
`triton_url, triton_model = triton_host.split("/")` raises when the split
does not yield exactly two parts. -/
def triton_server_ref_model (env : Option Str) : Except String (Str × Str) :=
  match env with
  | none => .error "Specify reference model in the TRITON_HOST_REF environmental variable"
  | some host =>
    match host.splitOn '/' with
    | [url, name] => .ok (url, name)
    | _ => .error "values to unpack mismatch"

/-- The chunked `ref_model` call over a fallible transport: each micro-batch
round trip either returns that chunk's logits rows or fails; there is no
retry or local handler, so a failing round trip ends the loop and the error
propagates to the caller (the `match` is the `Except` image of Python
exception propagation through the loop body). -/
def ref_model_remote {ρ σ : Type} (server : List ρ → Except String (List σ))
    (rows : List ρ) : Except String (List σ) :=
  (List.range ((rows.length + 7) / 8)).foldlM
    (fun out i =>
      match server ((rows.drop (i * 8)).take 8) with
      | .error e => .error e
      | .ok logits => .ok (out ++ logits))
    []

/-- If the server fails on any chunk drawn from the index list, the fold
fails. -/
theorem foldlM_server_error {ρ σ : Type} (server : List ρ → Except String (List σ))
    (rows : List ρ) :
    ∀ (l : List Nat) (acc : List σ),
      (∃ i ∈ l, ∃ e, server ((rows.drop (i * 8)).take 8) = .error e) →
      ∃ e, l.foldlM
          (fun out i =>
            match server ((rows.drop (i * 8)).take 8) with
            | .error e => .error e
            | .ok logits => .ok (out ++ logits))
          acc = Except.error e := by
  intro l
  induction l with
  | nil =>
    intro acc h
    rcases h with ⟨i, hi, _⟩
    simp at hi
  | cons j t ih =>
    intro acc h
    rw [List.foldlM_cons]
    cases hs : server ((rows.drop (j * 8)).take 8) with
    | error e => exact ⟨e, rfl⟩
    | ok r =>
      rcases h with ⟨i, hi, e, he⟩
      rcases List.mem_cons.mp hi with rfl | hit
      · rw [hs] at he
        simp at he
      · exact ih (acc ++ r) ⟨i, hit, e, he⟩

/-- C8: constructing the remote reference scorer fails immediately when the
`TRITON_HOST_REF` value is absent; when present and of the form
`<endpoint>/<model-name>` it configures the client with exactly that
endpoint and model name; and any transport or server error raised inside a
later `ref_model` call propagates uncaught to the caller (no retry). -/
theorem triton_ref_model_construction_and_error_propagation {ρ σ : Type}
    (server : List ρ → Except String (List σ)) (rows : List ρ) :
    triton_server_ref_model none
      = .error "Specify reference model in the TRITON_HOST_REF environmental variable" ∧
    (∀ url name : Str, '/' ∉ url → '/' ∉ name →
      triton_server_ref_model (some (url ++ '/' :: name)) = .ok (url, name)) ∧
    (∀ i, i < (rows.length + 7) / 8 →
      (∃ e, server ((rows.drop (i * 8)).take 8) = .error e) →
      ∃ e, ref_model_remote server rows = .error e) := by
  refine ⟨rfl, ?_, ?_⟩
  · intro url name hu hn
    have hls : ([url, name] : List Str) ≠ [] := by simp
    have hx : ∀ l ∈ ([url, name] : List Str), '/' ∉ l := by
      intro l hl
      rcases List.mem_cons.mp hl with rfl | hl2
      · exact hu
      · rcases List.mem_cons.mp hl2 with rfl | hl3
        · exact hn
        · simp at hl3
    have hsplit := List.splitOn_intercalate [url, name] '/' hx hls
    have hint : ([('/' : Char)].intercalate [url, name]) = url ++ '/' :: name := by
      simp [List.intercalate]
    rw [hint] at hsplit
    simp [triton_server_ref_model, hsplit]
  · intro i hi he
    exact foldlM_server_error server rows _ []
      ⟨i, List.mem_range.mpr hi, he⟩

/-- Witness for C8: a well-formed host value `"a/b"` splits into endpoint
`"a"` and model `"b"`; the no-slash hypotheses are discharged at the
concrete characters. -/
theorem triton_ref_model_construction_witness :
    triton_server_ref_model (some (['a'] ++ '/' :: ['b'])) = .ok (['a'], ['b']) :=
  (triton_ref_model_construction_and_error_propagation
      (ρ := Nat) (σ := Nat) (fun _ => .ok []) []).2.1
    ['a'] ['b'] (by decide) (by decide)

/-! ## `decode` (lines 534–606), `get_arch` (608–615), and the forward-pass
branch of `make_experience` (799–800)

```python
for prompt, sample, prompt_size in zip(prompts, samples, prompt_sizes):
    if self.config.model.model_arch_type == "seq2seq":
        raise NotImplementedError("Decoding for seq2seq models is not implemented yet")
    else:
        output_start_ix = prompt_size
    PAD_TOKEN_ID = self.tokenizer.pad_token_id
    str_prompt = self.tokenizer.decode(prompt[:prompt_size][prompt[:prompt_size] != PAD_TOKEN_ID], ...)
    str_output = self.tokenizer.decode(sample[output_start_ix:][sample[output_start_ix:] != PAD_TOKEN_ID], ...)
    trimmed = False
    if self.stop_sequences:
        for stop in self.stop_sequences:
            stop_ix = str_output.find(stop)
            if stop_ix >= 0:
                str_output = str_output[:stop_ix].rstrip()
                trimmed = True
    if append_eos_token and (trimmed or sample[-1] != self.tokenizer.eos_token_id):
        str_output += self.tokenizer.eos_token
```

The tokenizer's `decode` is external and appears as the parameter `detok`.
-/

/-- The whitespace characters `str.rstrip()` strips from ASCII text. -/
def isPySpace (c : Char) : Bool :=
  c = ' ' || c = '\t' || c = '\n' || c = '\r' || c = '\x0b' || c = '\x0c'

/-- Python `str.rstrip()`: remove trailing whitespace. -/
def rstrip (s : Str) : Str :=
  (s.reverse.dropWhile isPySpace).reverse

/-- Python `haystack.find(needle)`: index of the first occurrence of the
needle as a contiguous substring, with `none` standing for `-1`. -/
def findSub (pat : Str) : Str → Option Nat
  | [] => if pat.isPrefixOf ([] : Str) then some 0 else none
  | c :: t =>
    if pat.isPrefixOf (c :: t) then some 0
    else (findSub pat t).map (fun i => i + 1)

/-- Number of positions at which the pattern occurs as a contiguous
substring (used to count end-of-sequence markers in a decoded output). -/
def countSub (hay pat : Str) : Nat :=
  ((List.range (hay.length + 1)).filter (fun i => pat.isPrefixOf (hay.drop i))).length

/-- The body of the stop-sequence loop of `decode`: find the stop's first
occurrence in the current output text and, when present, cut there and
`rstrip`, recording that a trim happened. -/
def trimStep (acc : Str × Bool) (stop : Str) : Str × Bool :=
  match findSub stop acc.1 with
  | some ix => (rstrip (acc.1.take ix), true)
  | none => acc

/-- The stop-sequence loop of `decode`: run the trim step over the
configured stop strings in order, starting untrimmed. -/
def trimAtStops (stops : List Str) (s : Str) : Str × Bool :=
  stops.foldl trimStep (s, false)

/-- The configuration `decode` reads: architecture type, pad/eos token ids,
the eos token's text, and the configured stop strings. -/
structure DecodeCfg where
  archType : String
  padId : Token
  eosId : Token
  eosToken : Str
  stops : List Str

/-- One iteration of the `decode` loop (with `append_eos_token = True`, as
asserted at the top of `decode`): raise for seq2seq, otherwise decode the
pad-filtered prompt and output slices, trim at stop strings, and append the
eos text when a trim happened or the sample's last token is not the eos id. -/
def decodeExample (cfg : DecodeCfg) (detok : List Token → Str)
    (prompt sample : List Token) (promptSize : Nat) :
    Except String (Str × Str × Str) :=
  if cfg.archType = "seq2seq" then
    .error "Decoding for seq2seq models is not implemented yet"
  else
    let outputStartIx := promptSize
    let strPrompt := detok ((prompt.take promptSize).filter (fun t => t ≠ cfg.padId))
    let decoded := detok ((sample.drop outputStartIx).filter (fun t => t ≠ cfg.padId))
    let tr := trimAtStops cfg.stops decoded
    let strOutput := if tr.2 || decide (sample.getLast? ≠ some cfg.eosId)
      then tr.1 ++ cfg.eosToken else tr.1
    .ok (strPrompt ++ strOutput, strPrompt, strOutput)

/-- The whole `decode` call: one `(sample, prompt, output)` string triple per
example, or the first raised error (nothing is returned once an example
raises). -/
def decode (cfg : DecodeCfg) (detok : List Token → Str) :
    List (List Token × List Token × Nat) →
    Except String (List Str × List Str × List Str)
  | [] => .ok ([], [], [])
  | (prompt, sample, psize) :: rest =>
    match decodeExample cfg detok prompt sample psize with
    | .error e => .error e
    | .ok (sm, p, o) =>
      match decode cfg detok rest with
      | .error e => .error e
      | .ok (sms, ps, os) => .ok (sm :: sms, p :: ps, o :: os)

/-- The model `get_arch` would build for the non-seq2seq branch (the actual
loading is external). -/
inductive ArchModel where
  | causalLMHydraWithValueHead

/-- `get_arch`: raise for seq2seq, otherwise load the causal-LM model with
the hydra value head. -/
def get_arch (archType : String) : Except String ArchModel :=
  if archType = "seq2seq" then .error "Seq2Seq models are not implemented yet"
  else .ok ArchModel.causalLMHydraWithValueHead

/-- The guard opening the forward-pass section of `make_experience`
(`if self.config.model.model_arch_type == "seq2seq": raise NotImplementedError`),
reached before any forward pass runs. -/
def makeExperienceForwardBranch (archType : String) : Except String Unit :=
  if archType = "seq2seq" then .error "NotImplementedError" else .ok ()

/-! ## Claim C9: the seq2seq branches raise -/

/-- C9 counterexample to the claim as universally stated: a `decode`
invocation with the seq2seq architecture configured but an empty batch runs
the per-example loop zero times and returns the empty triple normally
instead of raising. -/
theorem seq2seq_decode_empty_counterexample :
    decode ⟨"seq2seq", 0, 2, [], []⟩ (fun _ => []) [] = .ok ([], [], []) := rfl

/-- C9 (amended): with the seq2seq architecture configured, `decode` raises
`NotImplementedError` before producing any output on every invocation with
at least one example (the guard sits at the top of the per-example loop, so
an empty batch returns empty output without raising), and `get_arch` and
the forward-pass branch of `make_experience` raise unconditionally. -/
theorem seq2seq_branches_raise (cfg : DecodeCfg) (detok : List Token → Str)
    (rows : List (List Token × List Token × Nat))
    (harch : cfg.archType = "seq2seq") (hrows : rows ≠ []) :
    decode cfg detok rows = .error "Decoding for seq2seq models is not implemented yet" ∧
    get_arch cfg.archType = .error "Seq2Seq models are not implemented yet" ∧
    makeExperienceForwardBranch cfg.archType = .error "NotImplementedError" := by
  refine ⟨?_, by simp [get_arch, harch], by simp [makeExperienceForwardBranch, harch]⟩
  match rows with
  | [] => exact absurd rfl hrows
  | (p, s, n) :: rest =>
    have hex : decodeExample cfg detok p s n
        = .error "Decoding for seq2seq models is not implemented yet" := by
      simp [decodeExample, harch]
    simp [decode, hex]

/-- Witness for C9: a one-example seq2seq batch; the architecture and
nonemptiness hypotheses are discharged at the concrete input. -/
theorem seq2seq_branches_raise_witness :
    decode ⟨"seq2seq", 0, 2, [], []⟩ (fun _ => []) [([1], [1], 1)]
      = .error "Decoding for seq2seq models is not implemented yet" :=
  (seq2seq_branches_raise ⟨"seq2seq", 0, 2, [], []⟩ (fun _ => [])
    [([1], [1], 1)] rfl (by decide)).1

/-! ## Claim C4: stop-string trimming and the end-of-sequence marker -/

/-- C4 counterexample: two concrete `decode` iterations refuting the claim.
First (stop order versus earliest occurrence): stops `["b", "ab"]` on
decoded output `"zab"` — the loop first cuts at `"b"` (index 2) leaving
`"za"`, in which `"ab"` no longer occurs, so the returned output is
`"za"` plus the marker; the first occurrence of any configured stop is
`"ab"` at index 1, which would give `"z"` plus the marker.  Second (marker
count): a sample ending in a padding token (id 7) whose decoded output
already ends with the marker text gets the marker appended again — the
condition checks `sample[-1] != eos_token_id`, not the output text — so the
decoded output yields the marker twice, not "exactly once at most". -/
theorem decode_trimming_counterexample :
    (decodeExample ⟨"causal", 7, 2, ['<', 'e', '>'], [['b'], ['a', 'b']]⟩
        (fun ts => if ts = [5] then ['z', 'a', 'b'] else []) [9] [9, 5, 7] 1
      = .ok (['z', 'a', '<', 'e', '>'], [], ['z', 'a', '<', 'e', '>'])) ∧
    findSub ['a', 'b'] ['z', 'a', 'b'] = some 1 ∧
    findSub ['b'] ['z', 'a', 'b'] = some 2 ∧
    rstrip (['z', 'a', 'b'].take 1) ++ ['<', 'e', '>'] = ['z', '<', 'e', '>'] ∧
    (['z', 'a', '<', 'e', '>'] : Str) ≠ ['z', '<', 'e', '>'] ∧
    (decodeExample ⟨"causal", 7, 2, ['<', 'e', '>'], []⟩
        (fun ts => if ts = [5] then ['x', '<', 'e', '>'] else []) [9] [9, 5, 7] 1
      = .ok (['x', '<', 'e', '>', '<', 'e', '>'], [],
          ['x', '<', 'e', '>', '<', 'e', '>'])) ∧
    countSub ['x', '<', 'e', '>', '<', 'e', '>'] ['<', 'e', '>'] = 2 := by
  refine ⟨rfl, rfl, rfl, rfl, by decide, rfl, rfl⟩

/-- Characterization of a failed substring search: no occurrence at any
position. -/
theorem findSub_none_iff (pat : Str) :
    ∀ hay : Str, findSub pat hay = none ↔ ∀ i, ¬ pat <+: hay.drop i := by
  intro hay
  induction hay with
  | nil =>
    by_cases hp : pat.isPrefixOf ([] : Str)
    · simp [findSub, hp, List.isPrefixOf_iff_prefix.mp hp]
    · simp only [findSub, if_neg hp]
      constructor
      · intro _ i
        simp only [List.drop_nil]
        intro hcontra
        exact hp (List.isPrefixOf_iff_prefix.mpr hcontra)
      · intro _
        trivial
  | cons c t ih =>
    by_cases hp : pat.isPrefixOf (c :: t)
    · constructor
      · intro h
        simp [findSub, hp] at h
      · intro h
        exact absurd (List.isPrefixOf_iff_prefix.mp hp) (by simpa using h 0)
    · simp only [findSub, if_neg hp, Option.map_eq_none']
      rw [ih]
      constructor
      · intro h i
        match i with
        | 0 =>
          simp only [List.drop_zero]
          intro hcontra
          exact hp (List.isPrefixOf_iff_prefix.mpr hcontra)
        | i + 1 => exact h i
      · intro h i
        exact h (i + 1)

/-- Characterization of a successful substring search: an occurrence at the
returned index, and none at any earlier index. -/
theorem findSub_some_spec (pat : Str) :
    ∀ (hay : Str) (ix : Nat), findSub pat hay = some ix →
      pat <+: hay.drop ix ∧ ∀ j < ix, ¬ pat <+: hay.drop j := by
  intro hay
  induction hay with
  | nil =>
    intro ix h
    by_cases hp : pat.isPrefixOf ([] : Str)
    · simp only [findSub, if_pos hp, Option.some.injEq] at h
      subst h
      exact ⟨List.isPrefixOf_iff_prefix.mp hp, by omega⟩
    · simp [findSub, hp] at h
  | cons c t ih =>
    intro ix h
    by_cases hp : pat.isPrefixOf (c :: t)
    · simp only [findSub, if_pos hp, Option.some.injEq] at h
      subst h
      exact ⟨List.isPrefixOf_iff_prefix.mp hp, by omega⟩
    · simp only [findSub, if_neg hp, Option.map_eq_some'] at h
      rcases h with ⟨ix0, h0, rfl⟩
      rcases ih ix0 h0 with ⟨hocc, hmin⟩
      refine ⟨by simpa using hocc, ?_⟩
      intro j hj
      match j with
      | 0 =>
        simp only [List.drop_zero]
        intro hcontra
        exact hp (List.isPrefixOf_iff_prefix.mpr hcontra)
      | j + 1 =>
        simpa using hmin j (by omega)

/-- An occurrence inside a prefix is an occurrence in the longer list. -/
theorem prefix_occurrence (pat u v : Str) (hpat : pat ≠ []) (hpre : u <+: v)
    (i : Nat) (h : pat <+: u.drop i) : pat <+: v.drop i := by
  rcases hpre with ⟨w, rfl⟩
  by_cases hi : i ≤ u.length
  · rw [List.drop_append_of_le_length hi]
    exact h.trans (List.prefix_append _ _)
  · exfalso
    have hnil : u.drop i = [] := List.drop_eq_nil_of_le (by omega)
    rw [hnil, List.prefix_nil] at h
    exact hpat h

/-- A nonempty pattern absent from a list is absent from each of its
prefixes. -/
theorem findSub_none_mono (pat : Str) (hpat : pat ≠ []) {u v : Str}
    (hpre : u <+: v) (hv : findSub pat v = none) : findSub pat u = none := by
  rw [findSub_none_iff] at hv ⊢
  intro i hcontra
  exact hv i (prefix_occurrence pat u v hpat hpre i hcontra)

/-- After cutting at the first occurrence and stripping trailing
whitespace, the pattern no longer occurs. -/
theorem rstrip_shortens (s : Str) : rstrip s <+: s := by
  have h := List.dropWhile_suffix (l := s.reverse) isPySpace
  have h2 := List.reverse_prefix.mpr h
  simpa [rstrip] using h2

/-- Cutting a list at the first occurrence of a nonempty pattern removes
every occurrence of that pattern. -/
theorem findSub_trim_none (pat u : Str) (ix : Nat) (hpat : pat ≠ [])
    (h : findSub pat u = some ix) : findSub pat (rstrip (u.take ix)) = none := by
  have hspec := findSub_some_spec pat u ix h
  have htake : findSub pat (u.take ix) = none := by
    rw [findSub_none_iff]
    intro j hcontra
    rw [List.drop_take ix j u] at hcontra
    have hocc : pat <+: u.drop j := hcontra.trans (List.take_prefix _ _)
    by_cases hj : j < ix
    · exact hspec.2 j hj hocc
    · have : ix - j = 0 := by omega
      rw [this, List.take_zero, List.prefix_nil] at hcontra
      exact hpat hcontra
  exact findSub_none_mono pat hpat (rstrip_shortens _) htake

/-- One trim step can only shorten the current text (to one of its
prefixes). -/
theorem trimStep_fst_shortens (acc : Str × Bool) (stop : Str) :
    (trimStep acc stop).1 <+: acc.1 := by
  unfold trimStep
  cases h : findSub stop acc.1 with
  | none => exact List.prefix_refl _
  | some ix => exact (rstrip_shortens _).trans (List.take_prefix _ _)

/-- After its own trim step, a nonempty stop string no longer occurs in the
current text. -/
theorem trimStep_none (acc : Str × Bool) (stop : Str) (hpat : stop ≠ []) :
    findSub stop (trimStep acc stop).1 = none := by
  unfold trimStep
  cases h : findSub stop acc.1 with
  | none => exact h
  | some ix => exact findSub_trim_none stop acc.1 ix hpat h

/-- The whole stop loop only shortens the text (to one of its prefixes). -/
theorem trimFold_shortens (stops : List Str) :
    ∀ acc : Str × Bool, (stops.foldl trimStep acc).1 <+: acc.1 := by
  induction stops with
  | nil => intro acc; exact List.prefix_refl _
  | cons q rest ih =>
    intro acc
    rw [List.foldl_cons]
    exact (ih (trimStep acc q)).trans (trimStep_fst_shortens acc q)

/-- After the whole stop loop, no nonempty configured stop string occurs in
the resulting text. -/
theorem trimFold_stop_free (stops : List Str) :
    ∀ (acc : Str × Bool), ∀ p ∈ stops, p ≠ [] →
      findSub p (stops.foldl trimStep acc).1 = none := by
  induction stops with
  | nil =>
    intro acc p hp
    simp at hp
  | cons q rest ih =>
    intro acc p hp hpne
    rw [List.foldl_cons]
    rcases List.mem_cons.mp hp with rfl | hrest
    · exact findSub_none_mono p hpne (trimFold_shortens rest (trimStep acc p))
        (trimStep_none acc p hpne)
    · exact ih (trimStep acc q) p hrest hpne

/-- The decoded, pad-filtered output slice of one example — the text the
stop loop receives (`self.tokenizer.decode(sample[output_start_ix:][... != PAD_TOKEN_ID])`). -/
def decodedOutput (cfg : DecodeCfg) (detok : List Token → Str)
    (sample : List Token) (psize : Nat) : Str :=
  detok ((sample.drop psize).filter (fun t => t ≠ cfg.padId))

/-- C4 (amended): for a non-seq2seq decode iteration with nonempty stop
strings, the returned output is built from a trimmed text that is a prefix
of the decoded output, obtained by cutting at each stop string's first
occurrence in configuration order (rstripping after each cut) — so no
configured stop string occurs in the result, though the cut position is not
always the globally earliest stop occurrence — and the end-of-sequence text
is appended to it exactly once when a trim happened or the sample's last
token is not the eos id, and not at all otherwise (the sample's last token
may be padding even when the output text already ends with the marker). -/
theorem decode_trimming_amended (cfg : DecodeCfg) (detok : List Token → Str)
    (prompt sample : List Token) (psize : Nat)
    (harch : cfg.archType ≠ "seq2seq")
    (hstops : ∀ p ∈ cfg.stops, p ≠ []) :
    (trimAtStops cfg.stops (decodedOutput cfg detok sample psize)).1
      <+: decodedOutput cfg detok sample psize ∧
    (∀ p ∈ cfg.stops,
      findSub p (trimAtStops cfg.stops (decodedOutput cfg detok sample psize)).1
        = none) ∧
    decodeExample cfg detok prompt sample psize
      = .ok
          (detok ((prompt.take psize).filter (fun t => t ≠ cfg.padId))
            ++ (if (trimAtStops cfg.stops (decodedOutput cfg detok sample psize)).2
                  || decide (sample.getLast? ≠ some cfg.eosId)
                then (trimAtStops cfg.stops (decodedOutput cfg detok sample psize)).1
                  ++ cfg.eosToken
                else (trimAtStops cfg.stops (decodedOutput cfg detok sample psize)).1),
            detok ((prompt.take psize).filter (fun t => t ≠ cfg.padId)),
            if (trimAtStops cfg.stops (decodedOutput cfg detok sample psize)).2
                || decide (sample.getLast? ≠ some cfg.eosId)
              then (trimAtStops cfg.stops (decodedOutput cfg detok sample psize)).1
                ++ cfg.eosToken
              else (trimAtStops cfg.stops (decodedOutput cfg detok sample psize)).1) := by
  refine ⟨trimFold_shortens cfg.stops _, ?_, ?_⟩
  · intro p hp
    exact trimFold_stop_free cfg.stops _ p hp (hstops p hp)
  · simp [decodeExample, harch, decodedOutput]

/-- Witness for C4: stop `"b"` on the decoded output `"zab"`; the
architecture and nonempty-stop hypotheses are discharged at the concrete
input, and the theorem yields that `"b"` no longer occurs in the trimmed
text. -/
theorem decode_trimming_amended_witness :
    findSub ['b'] (trimAtStops [['b']]
      (decodedOutput ⟨"causal", 7, 2, ['<', 'e', '>'], [['b']]⟩
        (fun ts => if ts = [5] then ['z', 'a', 'b'] else []) [9, 5, 7] 1)).1 = none :=
  (decode_trimming_amended ⟨"causal", 7, 2, ['<', 'e', '>'], [['b']]⟩
    (fun ts => if ts = [5] then ['z', 'a', 'b'] else []) [9] [9, 5, 7] 1
    (by decide) (by decide)).2.1 ['b'] (by decide)
